import Mathlib

/-!
Verification of the structural-extraction core of a Rust codebase indexer.

The source (src/src/main.rs) walks the `syn` AST of each `.rs` file and
emits Neo4j `MERGE` upserts.  We shallowly embed the AST fragments the
analysis inspects, the interaction traversal (`find_interactions_in_expr`,
`find_interactions_in_stmt`), the identifier extraction
(`get_ident_from_type`, `Path::get_ident` from the `syn` library), and the
per-item emission stream of `process_ast`, then prove the specification's
claims about them.
-/

namespace Indexer

/-- One segment of a `syn` path (`syn::PathSegment`): an identifier plus
whether the segment carries path arguments (generic or parenthesized
arguments; `arguments = true` models a non-`None` `PathArguments`). -/
structure PathSegment where
  ident : String
  arguments : Bool
deriving DecidableEq, Repr

/-- A `syn::Path`: optional leading `::` plus a list of segments. -/
structure Path where
  leading_colon : Bool
  segments : List PathSegment
deriving DecidableEq, Repr

/-- Model of `syn::Path::get_ident`: returns the identifier exactly when the path has
no leading colon, exactly one segment, and that segment has no arguments. -/
def Path.get_ident (p : Path) : Option String :=
  match p.leading_colon, p.segments with
  | false, [seg] => if seg.arguments then none else some seg.ident
  | _, _ => none

/-- The fragment of `syn::Type` the analysis distinguishes: a type path,
a reference type (`&T`), or any other type shape (the code only ever asks
whether the type is a `Type::Path`). -/
inductive Typ where
  | path (p : Path)
  | reference (inner : Typ)
  | other
deriving DecidableEq, Repr

/-- Function `get_ident_from_type` from main.rs: for a `Type::Path`, the identifier
of the **last** path segment; `None` for every other type shape. -/
def get_ident_from_type (ty : Typ) : Option String :=
  match ty with
  | Typ.path type_path =>
    match type_path.segments.getLast? with
    | some segment => some segment.ident
    | none => none
  | _ => none

mutual
/-- The fragment of `syn::Expr` relevant to the traversal.  The four shapes
the code handles (`Call`, `Struct`, `Block`, `If`) are modelled with the
sub-trees the code reads; the remaining variants cover the `_ => {}` arm and
carry their sub-expressions so we can state that those are never visited.
Per syn 2, `ExprPath` and `ExprStruct` both carry a `qself: Option<QSelf>`
type qualifier (as in `<Vec<i32>>::new` or `<Foo>::Baz { .. }`), modelled
here by the qualifying type; the code's patterns `ExprPath { path, .. }` and
`ExprStruct { path, .. }` ignore it. -/
inductive Expr where
  | call (func : Expr) (args : List Expr)
  | structLit (qself : Option Typ) (p : Path) (fields : List Expr)
  | block (stmts : List Stmt)
  | ifE (cond : Expr) (then_branch : List Stmt) (else_branch : Option Expr)
  | pathE (qself : Option Typ) (p : Path)
  | methodCall (receiver : Expr) (method : String) (args : List Expr)
  | whileE (cond : Expr) (body : List Stmt)
  | loopE (body : List Stmt)
  | forE (iter : Expr) (body : List Stmt)
  | matchE (scrutinee : Expr) (arms : List Expr)
  | closure (body : Expr)
  | binary (lhs : Expr) (rhs : Expr)
  | unary (operand : Expr)
  | awaitE (base : Expr)
  | tryE (base : Expr)
  | array (elems : List Expr)
  | tuple (elems : List Expr)
  | index (base : Expr) (idx : Expr)
  | lit

/-- The fragment of `syn::Stmt`: `Local` (a `let`, with optional
initializer), `Expr` (an expression statement, with or without semicolon),
and the other statement kinds the code ignores. -/
inductive Stmt where
  | localStmt (init : Option Expr)
  | exprStmt (e : Expr)
  | itemStmt
  | otherStmt
end

/-- The `Interaction` enum of main.rs. -/
inductive Interaction where
  | FunctionCall (name : String)
  | StructInstantiation (name : String)
deriving DecidableEq, Repr

mutual
/-- Function `find_interactions_in_expr` from main.rs, returning the list of
interactions it would push (in push order). -/
def find_interactions_in_expr : Expr → List Interaction
  | Expr.call func _ =>
    match func with
    | Expr.pathE _ p =>
      match p.get_ident with
      | some ident => [Interaction.FunctionCall ident]
      | none => []
    | _ => []
  | Expr.structLit _ p _ =>
    match p.get_ident with
    | some ident => [Interaction.StructInstantiation ident]
    | none => []
  | Expr.block stmts => find_interactions_in_stmts stmts
  | Expr.ifE _ then_branch else_branch =>
    find_interactions_in_stmts then_branch ++
      match else_branch with
      | some else_expr => find_interactions_in_expr else_expr
      | none => []
  | _ => []

/-- Function `find_interactions_in_stmt` from main.rs. -/
def find_interactions_in_stmt : Stmt → List Interaction
  | Stmt.localStmt (some init) => find_interactions_in_expr init
  | Stmt.localStmt none => []
  | Stmt.exprStmt e => find_interactions_in_expr e
  | Stmt.itemStmt => []
  | Stmt.otherStmt => []

/-- The fold of `find_interactions_in_stmt` over a statement list, as done
by the loops in `process_ast`, `Expr::Block`, and `Expr::If`. -/
def find_interactions_in_stmts : List Stmt → List Interaction
  | [] => []
  | s :: rest => find_interactions_in_stmt s ++ find_interactions_in_stmts rest
end

/-- One graph upsert emitted by the indexer.  Each constructor records the
key fields of the corresponding Cypher `MERGE`: node upserts carry the node
label's key, edge upserts the two endpoint keys (the `MATCH`-ed endpoints of
`CONTAINS` / `CALLS` / `INSTANTIATES` are part of the edge key). -/
inductive GraphKey where
  | projectNode (name : String)
  | fileNode (path : String)
  | functionNode (name project : String)
  | structNode (name project : String)
  | traitNode (name project : String)
  | containsFileEdge (project path : String)
  | containsFnEdge (path name project : String)
  | containsStructEdge (path name project : String)
  | containsTraitEdge (path name project : String)
  | callsEdge (caller callee project : String)
  | instantiatesEdge (caller callee project : String)
  | implementsEdge (structName traitName project : String)
deriving DecidableEq, Repr

/-- The fragment of `syn::Item` that `process_ast` distinguishes: functions
(with their body statements), structs, traits, impl blocks (with the
optional trait path and the self type), and the catch-all `_ => {}` arm. -/
inductive Item where
  | fn (name : String) (stmts : List Stmt)
  | structItem (name : String)
  | traitItem (name : String)
  | implItem (traitPath : Option Path) (self_ty : Typ)
  | otherItem

/-- The upserts emitted for one interaction found in the body of function
`func_name`: the `CALLS` query merges the callee `Function` node and the
edge; the `INSTANTIATES` query merges the `Struct` node and the edge. -/
def emit_interaction (project func_name : String) : Interaction → List GraphKey
  | Interaction.FunctionCall callee_name =>
    [GraphKey.functionNode callee_name project,
     GraphKey.callsEdge func_name callee_name project]
  | Interaction.StructInstantiation struct_name =>
    [GraphKey.structNode struct_name project,
     GraphKey.instantiatesEdge func_name struct_name project]

/-- The upserts emitted by one iteration of the `for item in ast.items`
loop of `process_ast` in main.rs. -/
def process_item (project file_path : String) : Item → List GraphKey
  | Item.fn func_name stmts =>
    [GraphKey.functionNode func_name project,
     GraphKey.containsFnEdge file_path func_name project] ++
    (find_interactions_in_stmts stmts).flatMap (emit_interaction project func_name)
  | Item.structItem struct_name =>
    [GraphKey.structNode struct_name project,
     GraphKey.containsStructEdge file_path struct_name project]
  | Item.traitItem trait_name =>
    [GraphKey.traitNode trait_name project,
     GraphKey.containsTraitEdge file_path trait_name project]
  | Item.implItem traitPath self_ty =>
    match traitPath with
    | some trait_path =>
      match trait_path.segments.getLast?, get_ident_from_type self_ty with
      | some trait_ident, some struct_ident =>
        [GraphKey.structNode struct_ident project,
         GraphKey.traitNode trait_ident.ident project,
         GraphKey.implementsEdge struct_ident trait_ident.ident project]
      | _, _ => []
    | none => []
  | Item.otherItem => []

/-- `process_ast` from main.rs: the concatenated upsert stream over the
file's top-level items, in source order. -/
def process_ast (project file_path : String) (items : List Item) : List GraphKey :=
  items.flatMap (process_item project file_path)

/-- The per-file work of the `for entry in WalkDir...` loop in `main`:
the `File` node and `CONTAINS_FILE` edge are merged unconditionally, then
`process_ast` runs only when `syn::parse_file` succeeded (`parsed = some
items`); on parse failure nothing further is emitted for the file. -/
def index_file (project : String) (file : String × Option (List Item)) : List GraphKey :=
  [GraphKey.fileNode file.1, GraphKey.containsFileEdge project file.1] ++
  match file.2 with
  | some items => process_ast project file.1 items
  | none => []

/-- The whole run of `main` over the walked files: the `Project` node merge
followed by each file's emissions, files processed in order. -/
def index_run (project : String) (files : List (String × Option (List Item))) :
    List GraphKey :=
  GraphKey.projectNode project :: files.flatMap (index_file project)

/-- Following the spec's words: a path is a *bare, unqualified identifier*
when it has no leading `::`, consists of a single segment, and that segment
carries no generic arguments; the value is that identifier. -/
def spec_bare_ident (p : Path) : Option String :=
  match p.leading_colon, p.segments with
  | false, [seg] => if seg.arguments then none else some seg.ident
  | _, _ => none

/-- Following the spec's words: the callee of a call is a *bare, unqualified
identifier* when it is a plain path expression (no receiver, not a method
call, no type qualifier) whose path is a bare identifier. -/
def spec_bare_callee_ident : Expr → Option String
  | Expr.pathE none p => spec_bare_ident p
  | _ => none

/-- Following the amended C2's words: the identifier the traversal records
for a callee — the callee must be a path expression whose *path component*
is a bare single segment; a type qualifier, if present, is ignored. -/
def callee_path_ident : Expr → Option String
  | Expr.pathE _ p => spec_bare_ident p
  | _ => none

/-- Following the spec's words for struct literals: the literal's type path
is a *bare, unqualified identifier* only when the literal carries no type
qualifier and its path is a bare single segment. -/
def spec_bare_struct_ident (qself : Option Typ) (p : Path) : Option String :=
  match qself with
  | some _ => none
  | none => spec_bare_ident p

/-- Create-if-absent upsert on an accumulated key set kept as a list:
an already-present key is a no-op merge, a new key is appended. -/
def upsert (acc : List GraphKey) (k : GraphKey) : List GraphKey :=
  if k ∈ acc then acc else acc ++ [k]

/-- Set-based interpretation of an emission stream: every upsert in order,
each one create-if-absent (as the Cypher `MERGE` clauses behave). -/
def merge_stream (ks : List GraphKey) : List GraphKey :=
  ks.foldl upsert []

theorem mem_foldl_upsert_of_mem_acc (l : List GraphKey) :
    ∀ (acc : List GraphKey) (x : GraphKey), x ∈ acc → x ∈ l.foldl upsert acc := by
  induction l with
  | nil => intro acc x hx; simpa using hx
  | cons a l ih =>
    intro acc x hx
    simp only [List.foldl_cons]
    apply ih
    unfold upsert
    split
    · exact hx
    · exact List.mem_append_left _ hx

theorem mem_foldl_upsert_of_mem (l : List GraphKey) :
    ∀ (acc : List GraphKey) (x : GraphKey), x ∈ l → x ∈ l.foldl upsert acc := by
  induction l with
  | nil => intro acc x hx; simp at hx
  | cons a l ih =>
    intro acc x hx
    simp only [List.foldl_cons]
    rcases List.mem_cons.mp hx with rfl | hx
    · apply mem_foldl_upsert_of_mem_acc
      unfold upsert
      split
      · assumption
      · exact List.mem_append_right _ (List.mem_singleton.mpr rfl)
    · exact ih _ x hx

theorem foldl_upsert_of_subset (l : List GraphKey) :
    ∀ (acc : List GraphKey), (∀ x ∈ l, x ∈ acc) → l.foldl upsert acc = acc := by
  induction l with
  | nil => intro acc _; rfl
  | cons a l ih =>
    intro acc h
    simp only [List.foldl_cons]
    have ha : upsert acc a = acc := by
      unfold upsert
      rw [if_pos (h a (List.mem_cons_self a l))]
    rw [ha]
    exact ih acc (fun x hx => h x (List.mem_cons_of_mem a hx))

/- Concrete syntax fixtures used by the tests in the spec's §8. -/

/-- A bare single-segment path (no leading colon, no generic arguments). -/
def bareP (id : String) : Path := ⟨false, [⟨id, false⟩]⟩

def fooCall : Expr := Expr.call (Expr.pathE none (bareP "foo")) []

def barCall : Expr := Expr.call (Expr.pathE none (bareP "bar")) []

/-- The path `a::b::bar`. -/
def abBarPath : Path := ⟨false, [⟨"a", false⟩, ⟨"b", false⟩, ⟨"bar", false⟩]⟩

/-- The method call `self.bar()`. -/
def selfBarCall : Expr := Expr.methodCall (Expr.pathE none (bareP "self")) "bar" []

/-- The path `module::Point`. -/
def modulePointPath : Path := ⟨false, [⟨"module", false⟩, ⟨"Point", false⟩]⟩

/-- The path `Point::<...>` (one segment with generic arguments). -/
def genericPointPath : Path := ⟨false, [⟨"Point", true⟩]⟩

/-- The path `a::b::Person`. -/
def abPersonPath : Path := ⟨false, [⟨"a", false⟩, ⟨"b", false⟩, ⟨"Person", false⟩]⟩

/-- The path `Person<T>` (one segment carrying generic arguments). -/
def genericPersonPath : Path := ⟨false, [⟨"Person", true⟩]⟩

def makeCall : Expr := Expr.call (Expr.pathE none (bareP "make")) []

/-- The type `Vec<i32>` (a path type whose one segment carries generic
arguments). -/
def vecI32Typ : Typ := Typ.path ⟨false, [⟨"Vec", true⟩]⟩

/-- The callee of `<Vec<i32>>::new()`: a type-qualified path expression whose
path component is the single bare segment `new`. -/
def vecNewCallee : Expr := Expr.pathE (some vecI32Typ) (bareP "new")

/-- The type `Foo`. -/
def fooTyp : Typ := Typ.path (bareP "Foo")

/-- The body `if cond { foo(); } else { bar(); }` as a statement list. -/
def ifFooElseBarBody : List Stmt :=
  [Stmt.exprStmt (Expr.ifE (Expr.pathE none (bareP "cond"))
    [Stmt.exprStmt fooCall]
    (some (Expr.block [Stmt.exprStmt barCall])))]

/-- The body `while cond { foo(); }` as a statement list. -/
def whileFooBody : List Stmt :=
  [Stmt.exprStmt (Expr.whileE (Expr.pathE none (bareP "cond")) [Stmt.exprStmt fooCall])]

/-- C2 counterexample: the call `<Vec<i32>>::new()` has a type-qualified
callee — not a bare, unqualified identifier — yet `Call("new")` is recorded,
because the code reads only the `path` component of an `ExprPath` callee and
its `get_ident` check cannot see the `qself` qualifier. -/
theorem qualified_callee_records_call :
    spec_bare_callee_ident vecNewCallee = none ∧
    find_interactions_in_stmts [Stmt.exprStmt (Expr.call vecNewCallee [])] =
      [Interaction.FunctionCall "new"] :=
  ⟨rfl, rfl⟩

/-- C2 amended: a call expression records `Call(identifier)` exactly when the
callee is a path expression whose *path component* is a single segment with
no leading colon and no generic arguments — a type qualifier on the callee is
ignored, so `<Vec<i32>>::new()` records `Call("new")`; calls through
multi-segment qualified paths (`a::b::bar()`), through field/method access
(`self.bar()`), and through computed callables record nothing. -/
theorem call_records_iff_callee_path_ident :
    (∀ (func : Expr) (args : List Expr),
      find_interactions_in_expr (Expr.call func args) =
        Option.elim (callee_path_ident func) []
          (fun id => [Interaction.FunctionCall id])) ∧
    find_interactions_in_stmts [Stmt.exprStmt selfBarCall] = [] ∧
    find_interactions_in_stmts
      [Stmt.exprStmt (Expr.call (Expr.pathE none abBarPath) [])] = [] ∧
    find_interactions_in_stmts [Stmt.exprStmt (Expr.call vecNewCallee [])] =
      [Interaction.FunctionCall "new"] := by
  refine ⟨?_, rfl, rfl, rfl⟩
  intro func args
  cases func <;>
    simp only [find_interactions_in_expr, callee_path_ident, Option.elim]
  rename_i q p
  rcases p with ⟨lc, segs⟩
  cases lc <;> rcases segs with _ | ⟨seg, _ | ⟨s2, rest⟩⟩ <;>
    simp [Path.get_ident, spec_bare_ident] <;>
    rcases seg with ⟨id, args'⟩ <;> cases args' <;> simp

/-- C3 counterexample: the struct literal `<Foo>::Baz { .. }` has a
type-qualified — not bare — type path, yet `Instantiate("Baz")` is recorded,
because the code reads only the `path` component of the `ExprStruct` and its
`get_ident` check cannot see the `qself` qualifier. -/
theorem qualified_struct_literal_records_instantiation :
    spec_bare_struct_ident (some fooTyp) (bareP "Baz") = none ∧
    find_interactions_in_stmts
        [Stmt.exprStmt (Expr.structLit (some fooTyp) (bareP "Baz") [])] =
      [Interaction.StructInstantiation "Baz"] :=
  ⟨rfl, rfl⟩

/-- C3 amended: a struct-literal expression records `Instantiate(identifier)`
exactly when its *path component* is a single segment with no leading colon
and no generic arguments — a type qualifier on the literal is ignored, so
`<Foo>::Baz { .. }` records `Instantiate("Baz")`; `Point { x: 1, y: 2 }`
yields `Instantiate("Point")` while `module::Point { .. }` and generic
struct literals yield nothing. -/
theorem struct_literal_records_iff_path_ident :
    (∀ (q : Option Typ) (p : Path) (fields : List Expr),
      find_interactions_in_expr (Expr.structLit q p fields) =
        Option.elim (spec_bare_ident p) []
          (fun id => [Interaction.StructInstantiation id])) ∧
    find_interactions_in_stmts
      [Stmt.exprStmt (Expr.structLit none (bareP "Point") [Expr.lit, Expr.lit])] =
      [Interaction.StructInstantiation "Point"] ∧
    find_interactions_in_stmts
      [Stmt.exprStmt (Expr.structLit none modulePointPath [])] = [] ∧
    find_interactions_in_stmts
      [Stmt.exprStmt (Expr.structLit none genericPointPath [])] = [] ∧
    find_interactions_in_stmts
        [Stmt.exprStmt (Expr.structLit (some fooTyp) (bareP "Baz") [])] =
      [Interaction.StructInstantiation "Baz"] := by
  refine ⟨?_, rfl, rfl, rfl, rfl⟩
  intro q p fields
  simp only [find_interactions_in_expr, Option.elim]
  rcases p with ⟨lc, segs⟩
  cases lc <;> rcases segs with _ | ⟨seg, _ | ⟨s2, rest⟩⟩ <;>
    simp [Path.get_ident, spec_bare_ident] <;>
    rcases seg with ⟨id, args'⟩ <;> cases args' <;> simp

/-- C4: an if-expression contributes the interactions of its then-branch
statements followed by those of its else expression when present (covering
`else { }` blocks and `else if` chains alike); the body
`if cond { foo(); } else { bar(); }` yields exactly
`Call("foo")` then `Call("bar")`. -/
theorem if_expr_traverses_then_and_else :
    (∀ (cond : Expr) (then_branch : List Stmt) (else_expr : Expr),
      find_interactions_in_expr (Expr.ifE cond then_branch (some else_expr)) =
        find_interactions_in_stmts then_branch ++
          find_interactions_in_expr else_expr) ∧
    (∀ (cond : Expr) (then_branch : List Stmt),
      find_interactions_in_expr (Expr.ifE cond then_branch none) =
        find_interactions_in_stmts then_branch) ∧
    find_interactions_in_stmts ifFooElseBarBody =
      [Interaction.FunctionCall "foo", Interaction.FunctionCall "bar"] := by
  refine ⟨fun _ _ _ => rfl, fun _ then_branch => ?_, rfl⟩
  simp [find_interactions_in_expr]

/-- C5: every expression kind other than call, struct-literal, block, and if
(method calls, while/loop/for loops, match, closures, binary and unary
operators, await, try-propagation, array/tuple/index expressions, bare paths,
literals) contributes no interactions, whatever sits inside it; the body
`while cond { foo(); }` yields the empty interaction list. -/
theorem untraversed_expr_kinds_yield_nothing :
    (∀ (r : Expr) (m : String) (a : List Expr),
      find_interactions_in_expr (Expr.methodCall r m a) = []) ∧
    (∀ (c : Expr) (b : List Stmt), find_interactions_in_expr (Expr.whileE c b) = []) ∧
    (∀ (b : List Stmt), find_interactions_in_expr (Expr.loopE b) = []) ∧
    (∀ (i : Expr) (b : List Stmt), find_interactions_in_expr (Expr.forE i b) = []) ∧
    (∀ (s : Expr) (arms : List Expr), find_interactions_in_expr (Expr.matchE s arms) = []) ∧
    (∀ (b : Expr), find_interactions_in_expr (Expr.closure b) = []) ∧
    (∀ (l r : Expr), find_interactions_in_expr (Expr.binary l r) = []) ∧
    (∀ (e : Expr), find_interactions_in_expr (Expr.unary e) = []) ∧
    (∀ (e : Expr), find_interactions_in_expr (Expr.awaitE e) = []) ∧
    (∀ (e : Expr), find_interactions_in_expr (Expr.tryE e) = []) ∧
    (∀ (es : List Expr), find_interactions_in_expr (Expr.array es) = []) ∧
    (∀ (es : List Expr), find_interactions_in_expr (Expr.tuple es) = []) ∧
    (∀ (b i : Expr), find_interactions_in_expr (Expr.index b i) = []) ∧
    (∀ (q : Option Typ) (p : Path),
      find_interactions_in_expr (Expr.pathE q p) = []) ∧
    find_interactions_in_expr Expr.lit = [] ∧
    find_interactions_in_stmts whileFooBody = [] :=
  ⟨fun _ _ _ => rfl, fun _ _ => rfl, fun _ => rfl, fun _ _ => rfl,
   fun _ _ => rfl, fun _ => rfl, fun _ _ => rfl, fun _ => rfl,
   fun _ => rfl, fun _ => rfl, fun _ => rfl, fun _ => rfl,
   fun _ _ => rfl, fun _ _ => rfl, rfl, rfl⟩

/-- C6: statement dispatch — a `let` with an initializer contributes the
initializer's interactions, a bare `let` contributes nothing, an expression
statement contributes its expression's interactions, and every other
statement kind (nested items, other statement forms) contributes nothing. -/
theorem stmt_dispatch_rules :
    (∀ (e : Expr),
      find_interactions_in_stmt (Stmt.localStmt (some e)) =
        find_interactions_in_expr e) ∧
    find_interactions_in_stmt (Stmt.localStmt none) = [] ∧
    (∀ (e : Expr),
      find_interactions_in_stmt (Stmt.exprStmt e) = find_interactions_in_expr e) ∧
    find_interactions_in_stmt Stmt.itemStmt = [] ∧
    find_interactions_in_stmt Stmt.otherStmt = [] :=
  ⟨fun _ => rfl, rfl, fun _ => rfl, rfl, rfl⟩

/-- C10: the traversal never descends into a call's argument expressions nor
into a struct literal's field initializers — the result for a call or struct
literal is independent of those sub-expressions; `foo(bar())` yields only
`Call("foo")` and `Point { x: make() }` yields only `Instantiate("Point")`. -/
theorem call_args_and_fields_not_traversed :
    (∀ (func : Expr) (args args2 : List Expr),
      find_interactions_in_expr (Expr.call func args) =
        find_interactions_in_expr (Expr.call func args2)) ∧
    (∀ (q : Option Typ) (p : Path) (fields fields2 : List Expr),
      find_interactions_in_expr (Expr.structLit q p fields) =
        find_interactions_in_expr (Expr.structLit q p fields2)) ∧
    find_interactions_in_stmts
      [Stmt.exprStmt (Expr.call (Expr.pathE none (bareP "foo")) [barCall])] =
      [Interaction.FunctionCall "foo"] ∧
    find_interactions_in_stmts
      [Stmt.exprStmt (Expr.structLit none (bareP "Point") [makeCall])] =
      [Interaction.StructInstantiation "Point"] :=
  ⟨fun _ _ _ => rfl, fun _ _ _ _ => rfl, rfl, rfl⟩

/-- C7: an impl block that names an interface and whose target type is a
bare identifier emits exactly the struct and trait node upserts and the one
`IMPLEMENTS` edge from the target to the interface's last path segment;
an impl block with no named interface emits nothing. -/
theorem impl_block_links_bare_target :
    (∀ (project file : String) (tp : Path) (tseg : PathSegment)
        (p : Path) (sid : String),
      tp.segments.getLast? = some tseg →
      spec_bare_ident p = some sid →
      process_item project file (Item.implItem (some tp) (Typ.path p)) =
        [GraphKey.structNode sid project,
         GraphKey.traitNode tseg.ident project,
         GraphKey.implementsEdge sid tseg.ident project]) ∧
    (∀ (project file : String) (self_ty : Typ),
      process_item project file (Item.implItem none self_ty) = []) := by
  constructor
  · intro project file tp tseg p sid htp hp
    have hsegs : p.segments = [⟨sid, false⟩] := by
      rcases p with ⟨lc, segs⟩
      cases lc
      · rcases segs with _ | ⟨⟨id, args'⟩, _ | ⟨s2, rest⟩⟩
        · simp [spec_bare_ident] at hp
        · simp only [spec_bare_ident] at hp
          rcases hp' : args' with _ | _
          · subst hp'
            simp at hp
            simp_all
          · subst hp'
            simp at hp
        · simp [spec_bare_ident] at hp
      · simp [spec_bare_ident] at hp
    simp [process_item, get_ident_from_type, hsegs, htp]
  · intro project file self_ty
    rfl

/-- C7 witness: `impl Greet for Person { .. }` yields exactly the
`Person IMPLEMENTS Greet` edge with its endpoint upserts, and
`impl Person { .. }` yields nothing. -/
theorem impl_block_links_bare_target_witness :
    process_item "proj" "lib.rs"
        (Item.implItem (some (bareP "Greet")) (Typ.path (bareP "Person"))) =
      [GraphKey.structNode "Person" "proj",
       GraphKey.traitNode "Greet" "proj",
       GraphKey.implementsEdge "Person" "Greet" "proj"] ∧
    process_item "proj" "lib.rs" (Item.implItem none (Typ.path (bareP "Person"))) = [] :=
  ⟨impl_block_links_bare_target.1 "proj" "lib.rs" (bareP "Greet")
      ⟨"Greet", false⟩ (bareP "Person") "Person" rfl rfl,
   impl_block_links_bare_target.2 "proj" "lib.rs" (Typ.path (bareP "Person"))⟩

/-- C1 counterexample: for the impl block `impl Greet for a::b::Person`,
whose target type is a qualified path (not a bare identifier), the code
still emits an `IMPLEMENTS` edge — refuting the claim that no edge is
emitted for such targets. -/
theorem impl_qualified_target_emits_edge :
    GraphKey.implementsEdge "Person" "Greet" "proj" ∈
      process_item "proj" "lib.rs"
        (Item.implItem (some (bareP "Greet")) (Typ.path abPersonPath)) := by
  simp [process_item, get_ident_from_type, abPersonPath, bareP]

/-- C1 amended: an impl block naming an interface emits no `IMPLEMENTS` edge
only when its target type is not a type path at all (a reference type, or
any other non-path shape); when the target type is a type path — including
generic instantiations such as `Person<T>` and qualified paths such as
`a::b::Person` — an edge is emitted using the last path segment's
identifier as the target name. -/
theorem impl_linker_skips_only_non_path_targets :
    (∀ (project file : String) (tp : Path) (inner : Typ),
      process_item project file (Item.implItem (some tp) (Typ.reference inner)) = []) ∧
    (∀ (project file : String) (tp : Path),
      process_item project file (Item.implItem (some tp) Typ.other) = []) ∧
    process_item "proj" "lib.rs"
        (Item.implItem (some (bareP "Greet")) (Typ.path abPersonPath)) =
      [GraphKey.structNode "Person" "proj",
       GraphKey.traitNode "Greet" "proj",
       GraphKey.implementsEdge "Person" "Greet" "proj"] ∧
    process_item "proj" "lib.rs"
        (Item.implItem (some (bareP "Greet")) (Typ.path genericPersonPath)) =
      [GraphKey.structNode "Person" "proj",
       GraphKey.traitNode "Greet" "proj",
       GraphKey.implementsEdge "Person" "Greet" "proj"] := by
  refine ⟨?_, ?_, rfl, rfl⟩
  · intro project file tp inner
    cases h : tp.segments.getLast? <;>
      simp [process_item, get_ident_from_type, h]
  · intro project file tp
    cases h : tp.segments.getLast? <;>
      simp [process_item, get_ident_from_type, h]

/-- C8: the Declaration Extractor is a pure function of the tree, and under
create-if-absent merge semantics feeding its emission stream twice yields
exactly the same accumulated node/edge set as feeding it once. -/
theorem extractor_idempotent_under_merge (project file : String) (items : List Item) :
    merge_stream (process_ast project file items ++ process_ast project file items) =
      merge_stream (process_ast project file items) := by
  unfold merge_stream
  rw [List.foldl_append]
  exact foldl_upsert_of_subset _ _
    (fun x hx => mem_foldl_upsert_of_mem _ [] x hx)

/-- C9: a file whose parse fails contributes only its `File` node and
`CONTAINS_FILE` edge (no Function/Struct/Trait/IMPLEMENTS records), and the
run continues unchanged with the files before and after it. -/
theorem parse_failure_skips_file_and_run_continues :
    (∀ (project path : String),
      index_file project (path, none) =
        [GraphKey.fileNode path, GraphKey.containsFileEdge project path]) ∧
    (∀ (project path : String) (pre post : List (String × Option (List Item))),
      index_run project (pre ++ (path, none) :: post) =
        GraphKey.projectNode project ::
          (pre.flatMap (index_file project) ++
            ([GraphKey.fileNode path, GraphKey.containsFileEdge project path] ++
              post.flatMap (index_file project)))) := by
  refine ⟨fun _ _ => rfl, ?_⟩
  intro project path pre post
  simp [index_run, index_file]

end Indexer
